import Mathlib

/-!
Shallow embedding of `src/Wether_Analyzer/weather_analysis.py`.

Numeric cells of the two measurement columns are modelled as `Option ℚ`:
`none` stands for a missing value (pandas `NaN`), `some q` for a finite
value, with exact rational arithmetic in place of IEEE floats.
Calendar timestamps produced by `pd.to_datetime` are modelled by `Date`.
The script's pandas pipeline (lines 43-99 and 158-168 of the source) is
embedded as pure functions on lists of rows.
-/

/-- A calendar date, the model of a pandas timestamp: `(year, month, day)`. -/
structure Date where
  year : Nat
  month : Nat
  day : Nat
deriving DecidableEq, Repr

/-- Gregorian leap-year test. -/
def Date.isLeap (y : Nat) : Bool :=
  (y % 4 == 0 && y % 100 != 0) || y % 400 == 0

/-- Number of days of month `m` in year `y` (Gregorian calendar). -/
def Date.daysInMonth (y m : Nat) : Nat :=
  if m = 2 then (if Date.isLeap y then 29 else 28)
  else if m = 4 ∨ m = 6 ∨ m = 9 ∨ m = 11 then 30
  else 31

/-- Chronological sort key: on real calendar dates (`Date.valid`) it orders
exactly as pandas timestamps do. -/
def Date.key (d : Date) : Nat := d.year * 10000 + d.month * 100 + d.day

/-- The dates `pd.to_datetime` can produce: real calendar dates. -/
def Date.valid (d : Date) : Prop :=
  1 ≤ d.month ∧ d.month ≤ 12 ∧ 1 ≤ d.day ∧ d.day ≤ Date.daysInMonth d.year d.month

instance (d : Date) : Decidable d.valid := by
  unfold Date.valid; infer_instance

/-- The next calendar day, the step of the `resample("D")` bucket index. -/
def Date.next (d : Date) : Date :=
  if d.day < Date.daysInMonth d.year d.month then ⟨d.year, d.month, d.day + 1⟩
  else if d.month < 12 then ⟨d.year, d.month + 1, 1⟩
  else ⟨d.year + 1, 1, 1⟩

/-- One CSV row after the `pd.to_datetime(df[DATE_COL], errors="coerce")`
coercion of line 43: `date = none` models `NaT` (an unparseable date field),
`temp`/`rain` `none` models `NaN` in the two measurement columns; `extra`
holds the values of the remaining source columns, discarded by line 50. -/
structure RawRow where
  date : Option Date
  temp : Option ℚ
  rain : Option ℚ
  extra : List String
deriving DecidableEq, Repr

/-- A row of the projected frame `df[[DATE_COL, TEMP_COL, RAIN_COL]]`
(line 50), after the invalid dates were dropped (line 46). -/
structure ProjRow where
  date : Date
  temp : Option ℚ
  rain : Option ℚ
deriving DecidableEq, Repr

/-- A row of the fully cleaned frame: measurement columns plus the derived
`Year`/`Month`/`Day` columns (lines 59-61) and the `Season` column
(line 168). -/
structure CRow where
  date : Date
  temp : Option ℚ
  rain : Option ℚ
  year : Nat
  month : Nat
  day : Nat
  season : String
deriving DecidableEq, Repr

/-- `df = df.dropna(subset=[DATE_COL])` (line 46): rows whose coerced date is
`NaT` are removed. -/
def dropna (rows : List RawRow) : List RawRow :=
  rows.filter (fun r => r.date.isSome)

/-- `df = df[cols_needed]` (lines 49-50): keep only the date and the two
measurement columns.  On the output of `dropna` every date is present, so
the `filterMap` drops nothing further. -/
def project (rows : List RawRow) : List ProjRow :=
  rows.filterMap (fun r => r.date.map (fun d => ⟨d, r.temp, r.rain⟩))

/-- `pandas.Series.mean()` with its default `skipna=True`: the arithmetic
mean of the non-null values, `NaN` (`none`) when there are none. -/
def meanSkipna (xs : List (Option ℚ)) : Option ℚ :=
  if (xs.filterMap id).length = 0 then none
  else some ((xs.filterMap id).sum / (xs.filterMap id).length)

/-- `pandas.Series.fillna(v)`: null entries receive `v`, non-null entries are
untouched.  When `v` is itself `NaN` (`none`) the call is a no-op. -/
def fillna (v : Option ℚ) (xs : List (Option ℚ)) : List (Option ℚ) :=
  xs.map (fun x => x.orElse (fun _ => v))

/-- One iteration of the imputation loop of lines 53-55 on one column:
`if df[col].isna().any(): df[col] = df[col].fillna(df[col].mean())`. -/
def fillColumn (xs : List (Option ℚ)) : List (Option ℚ) :=
  if xs.any (fun x => x.isNone) then fillna (meanSkipna xs) xs else xs

/-- Reassemble a frame from its date column and freshly written measurement
columns (the effect of the two `df[col] = ...` column assignments). -/
def writeCols : List ProjRow → List (Option ℚ) → List (Option ℚ) → List ProjRow
  | r :: t, tv :: tvs, rv :: rvs => ⟨r.date, tv, rv⟩ :: writeCols t tvs rvs
  | _, _, _ => []

/-- The whole imputation loop of lines 53-55: each of the two measurement
columns is mean-imputed independently. -/
def impute (t : List ProjRow) : List ProjRow :=
  writeCols t (fillColumn (t.map (fun r => r.temp)))
             (fillColumn (t.map (fun r => r.rain)))

/-- `df = df.sort_values(DATE_COL)` (line 58): rows reordered ascending by
date.  The source sorts with numpy's default introsort, whose ordering of
equal dates is not specified; the embedding uses an insertion sort, one
particular sort of the rows by date.  Every property proved below except
sortedness itself is invariant under which sorted permutation is produced
(it depends on the rows only up to permutation). -/
def sortByDate (t : List ProjRow) : List ProjRow :=
  List.insertionSort (fun a b => a.date.key ≤ b.date.key) t

/-- `month_to_season` (lines 158-166), verbatim: membership tests of the
`Month` value in the three explicit lists, with `Autumn` as the final
`else` catch-all.  The argument ranges over all integers, as in Python. -/
def month_to_season (m : Int) : String :=
  if m = 12 ∨ m = 1 ∨ m = 2 then "Winter"
  else if m = 3 ∨ m = 4 ∨ m = 5 then "Spring"
  else if m = 6 ∨ m = 7 ∨ m = 8 then "Summer"
  else "Autumn"

/-- Lines 59-61 and 168: derive the `Year`, `Month`, `Day` columns from the
date (`dt.year` / `dt.month` / `dt.day`) and the `Season` column from the
`Month` column via `month_to_season`. -/
def addDerived (t : List ProjRow) : List CRow :=
  t.map (fun r =>
    ⟨r.date, r.temp, r.rain, r.date.year, r.date.month, r.date.day,
      month_to_season (r.date.month : Int)⟩)

/-- The full cleaning stage, lines 43-61 plus the season column of line 168:
date coercion and row drop, projection, mean imputation, sort, derived
columns.  It is a total function: no step of the source raises on any
input. -/
def clean (rows : List RawRow) : List CRow :=
  addDerived (sortByDate (impute (project (dropna rows))))

/-- `np.mean` over a full column (lines 71, 75): NaN-propagating (numpy does
not skip NaN), and NaN on an empty array. -/
def npMean (xs : List (Option ℚ)) : Option ℚ :=
  if xs.any (fun x => x.isNone) || xs.isEmpty then none
  else some ((xs.filterMap id).sum / xs.length)

/-- `min` with `skipna` (the `"min"` aggregation of lines 87-97): least
non-null value, NaN when there is none. -/
def minSkipna (xs : List (Option ℚ)) : Option ℚ :=
  match xs.filterMap id with
  | [] => none
  | v :: vs => some (vs.foldl min v)

/-- `max` with `skipna` (the `"max"` aggregation of lines 87-97). -/
def maxSkipna (xs : List (Option ℚ)) : Option ℚ :=
  match xs.filterMap id with
  | [] => none
  | v :: vs => some (vs.foldl max v)

/-- One aggregate bucket, the row shape produced by
`.agg({TEMP_COL: ["mean", "min", "max"], RAIN_COL: "sum"})`
(lines 86-99): mean/min/max of temperature (NaN-skipping, NaN on an empty
group) and the sum of precipitation (NaN-skipping, `0` on an empty group). -/
structure Bucket where
  tempMean : Option ℚ
  tempMin : Option ℚ
  tempMax : Option ℚ
  rainSum : ℚ
deriving DecidableEq, Repr

/-- The aggregation applied to one group of rows. -/
def aggOf (g : List CRow) : Bucket :=
  { tempMean := meanSkipna (g.map (fun r => r.temp))
    tempMin := minSkipna (g.map (fun r => r.temp))
    tempMax := maxSkipna (g.map (fun r => r.temp))
    rainSum := (g.filterMap (fun r => r.rain)).sum }

/-- Total precipitation of a list of rows (NaN-skipping sum), the quantity
the bucket sums are compared against. -/
def rainTotal (g : List CRow) : ℚ :=
  (g.filterMap (fun r => r.rain)).sum

/-- Least element of a list by a numeric key: the start of the datetime
index range that `resample` buckets over (first occurrence on ties). -/
def minBy {α : Type} (key : α → Nat) : List α → Option α
  | [] => none
  | x :: xs =>
    match minBy key xs with
    | none => some x
    | some y => if key x ≤ key y then some x else some y

/-- Greatest element of a list by a numeric key: the end of the datetime
index range that `resample` buckets over. -/
def maxBy {α : Type} (key : α → Nat) : List α → Option α
  | [] => none
  | x :: xs =>
    match maxBy key xs with
    | none => some x
    | some y => if key y ≤ key x then some x else some y

/-- A `resample` bucket index: starting at `a` and stepping with `next`
while the key does not exceed `hi`.  `fuel` bounds the iteration; every use
below supplies enough fuel to exhaust the range. -/
def rangeBy {α : Type} (next : α → α) (key : α → Nat) : Nat → α → Nat → List α
  | 0, _, _ => []
  | fuel + 1, a, hi =>
    if key a ≤ hi then a :: rangeBy next key fuel (next a) hi else []

/-- The `(year, month)` pair of a row's date: the month period that
`resample("M")` groups the row into (the period behind the month-end
label). -/
def monthOf (r : CRow) : Nat × Nat := (r.date.year, r.date.month)

/-- Linear index of a month period (months since year 0). -/
def monthIdx (ym : Nat × Nat) : Nat := ym.1 * 12 + (ym.2 - 1)

/-- The next month period. -/
def monthNext (ym : Nat × Nat) : Nat × Nat :=
  if ym.2 < 12 then (ym.1, ym.2 + 1) else (ym.1 + 1, 1)

/-- The bucket labels of `df.set_index(DATE_COL).resample("D")` (line 86):
every calendar day from the least to the greatest date of the index,
whether or not any row falls on it. -/
def dailyKeys (t : List CRow) : List Date :=
  match minBy Date.key (t.map (fun r => r.date)),
        maxBy Date.key (t.map (fun r => r.date)) with
  | some lo, some hi => rangeBy Date.next Date.key (hi.key - lo.key + 1) lo hi.key
  | _, _ => []

/-- The bucket labels of `resample("M")` (line 91): every month period from
the least to the greatest month of the index. -/
def monthKeys (t : List CRow) : List (Nat × Nat) :=
  match minBy monthIdx (t.map monthOf), maxBy monthIdx (t.map monthOf) with
  | some lo, some hi =>
    rangeBy monthNext monthIdx (monthIdx hi - monthIdx lo + 1) lo (monthIdx hi)
  | _, _ => []

/-- The bucket labels of `resample("Y")` (line 96): every year from the
least to the greatest year of the index. -/
def yearKeys (t : List CRow) : List Nat :=
  match minBy id (t.map (fun r => r.date.year)),
        maxBy id (t.map (fun r => r.date.year)) with
  | some lo, some hi => rangeBy (fun y => y + 1) id (hi - lo + 1) lo hi
  | _, _ => []

/-- `daily` (lines 86-89): the daily buckets, keyed by calendar date. -/
def daily (t : List CRow) : List (Date × Bucket) :=
  (dailyKeys t).map (fun k => (k, aggOf (t.filter (fun r => r.date = k))))

/-- `monthly` (lines 91-94): the monthly buckets, keyed by month period. -/
def monthly (t : List CRow) : List ((Nat × Nat) × Bucket) :=
  (monthKeys t).map (fun k => (k, aggOf (t.filter (fun r => monthOf r = k))))

/-- `yearly` (lines 96-99): the yearly buckets, keyed by year. -/
def yearly (t : List CRow) : List (Nat × Bucket) :=
  (yearKeys t).map (fun k => (k, aggOf (t.filter (fun r => r.date.year = k))))

/-- The month periods that occur as `(year, month)` of a real date. -/
def validMonth (ym : Nat × Nat) : Prop := 1 ≤ ym.2 ∧ ym.2 ≤ 12

/-- The concrete input of the spec's scenario test: three parseable rows, a
null temperature in the second, and one row whose date fails to parse. -/
def exampleRows : List RawRow :=
  [⟨some ⟨2020, 1, 5⟩, some 10, some 0, []⟩,
   ⟨some ⟨2020, 1, 6⟩, none, some 2, []⟩,
   ⟨some ⟨2020, 2, 1⟩, some 20, some 1, []⟩,
   ⟨none, some 5, some 0, []⟩]

/-- An input whose temperature column has zero non-null values among the
rows that survive date parsing. -/
def allNullTempRows : List RawRow :=
  [⟨some ⟨2020, 1, 1⟩, none, some 1, []⟩,
   ⟨some ⟨2020, 1, 2⟩, none, some 2, []⟩]

/-- An input whose precipitation column has zero non-null values among the
rows that survive date parsing. -/
def allNullRainRows : List RawRow :=
  [⟨some ⟨2021, 3, 1⟩, some 4, none, []⟩,
   ⟨some ⟨2021, 3, 2⟩, some 6, none, []⟩]

/-- An input with records on 2020-01-01 and 2020-01-03 and none on
2020-01-02: a one-day gap strictly inside the date range. -/
def gapRows : List RawRow :=
  [⟨some ⟨2020, 1, 1⟩, some 1, some 1, []⟩,
   ⟨some ⟨2020, 1, 3⟩, some 2, some 2, []⟩]

theorem minBy_mem {α : Type} (key : α → Nat) :
    ∀ (l : List α) (a : α), minBy key l = some a → a ∈ l := by
  intro l
  induction l with
  | nil => intro a h; simp [minBy] at h
  | cons x xs ih =>
    intro a h
    rcases hxs : minBy key xs with _ | y <;> rw [minBy, hxs] at h
    · simp at h; simp [h]
    · by_cases hle : key x ≤ key y
      · simp [hle] at h; simp [h]
      · simp [hle] at h
        exact List.mem_cons_of_mem x (h ▸ ih y hxs)

theorem minBy_le {α : Type} (key : α → Nat) :
    ∀ (l : List α) (a : α), minBy key l = some a → ∀ x ∈ l, key a ≤ key x := by
  intro l
  induction l with
  | nil => intro a h; simp [minBy] at h
  | cons x xs ih =>
    intro a h z hz
    rcases hxs : minBy key xs with _ | y <;> rw [minBy, hxs] at h
    · simp at h
      rcases List.mem_cons.1 hz with hz | hz
      · simp [h, hz]
      · cases xs with
        | nil => simp at hz
        | cons w ws => rw [minBy] at hxs; rcases hw : minBy key ws with _ | u <;>
            rw [hw] at hxs <;> simp at hxs <;> split at hxs <;> simp_all
    · by_cases hle : key x ≤ key y
      · simp [hle] at h; subst h
        rcases List.mem_cons.1 hz with hz | hz
        · simp [hz]
        · exact le_trans hle (ih y hxs z hz)
      · simp [hle] at h; subst h
        rcases List.mem_cons.1 hz with hz | hz
        · subst hz; omega
        · exact ih y hxs z hz

theorem minBy_isSome {α : Type} (key : α → Nat) (l : List α) (h : l ≠ []) :
    (minBy key l).isSome := by
  cases l with
  | nil => exact absurd rfl h
  | cons x xs =>
    rw [minBy]
    rcases hxs : minBy key xs with _ | y <;> simp
    split <;> simp

theorem maxBy_mem {α : Type} (key : α → Nat) :
    ∀ (l : List α) (a : α), maxBy key l = some a → a ∈ l := by
  intro l
  induction l with
  | nil => intro a h; simp [maxBy] at h
  | cons x xs ih =>
    intro a h
    rcases hxs : maxBy key xs with _ | y <;> rw [maxBy, hxs] at h
    · simp at h; simp [h]
    · by_cases hle : key y ≤ key x
      · simp [hle] at h; simp [h]
      · simp [hle] at h
        exact List.mem_cons_of_mem x (h ▸ ih y hxs)

theorem maxBy_ge {α : Type} (key : α → Nat) :
    ∀ (l : List α) (a : α), maxBy key l = some a → ∀ x ∈ l, key x ≤ key a := by
  intro l
  induction l with
  | nil => intro a h; simp [maxBy] at h
  | cons x xs ih =>
    intro a h z hz
    rcases hxs : maxBy key xs with _ | y <;> rw [maxBy, hxs] at h
    · simp at h
      rcases List.mem_cons.1 hz with hz | hz
      · simp [h, hz]
      · cases xs with
        | nil => simp at hz
        | cons w ws => rw [maxBy] at hxs; rcases hw : maxBy key ws with _ | u <;>
            rw [hw] at hxs <;> simp at hxs <;> split at hxs <;> simp_all
    · by_cases hle : key y ≤ key x
      · simp [hle] at h; subst h
        rcases List.mem_cons.1 hz with hz | hz
        · simp [hz]
        · exact le_trans (ih y hxs z hz) hle
      · simp [hle] at h; subst h
        rcases List.mem_cons.1 hz with hz | hz
        · subst hz; omega
        · exact ih y hxs z hz

theorem maxBy_isSome {α : Type} (key : α → Nat) (l : List α) (h : l ≠ []) :
    (maxBy key l).isSome := by
  cases l with
  | nil => exact absurd rfl h
  | cons x xs =>
    rw [maxBy]
    rcases hxs : maxBy key xs with _ | y <;> simp
    split <;> simp

theorem rainTotal_nil : rainTotal [] = 0 := rfl

theorem rainTotal_cons (r : CRow) (g : List CRow) :
    rainTotal (r :: g) = r.rain.getD 0 + rainTotal g := by
  cases h : r.rain <;> simp [rainTotal, List.filterMap_cons, h]

theorem aggOf_rainSum (g : List CRow) : (aggOf g).rainSum = rainTotal g := rfl

theorem filter_sub {α : Type} (p q : α → Bool) (hpq : ∀ x, p x = true → q x = true) :
    ∀ l : List α, l.filter p = (l.filter q).filter p := by
  intro l
  induction l with
  | nil => rfl
  | cons x xs ih =>
    by_cases hp : p x = true
    · rw [List.filter_cons, if_pos hp, List.filter_cons, if_pos (hpq x hp),
        List.filter_cons, if_pos hp, ih]
    · rw [List.filter_cons, if_neg hp]
      by_cases hq : q x = true
      · rw [List.filter_cons, if_pos hq, List.filter_cons, if_neg hp, ih]
      · rw [List.filter_cons, if_neg hq, ih]

theorem sum_indicator {κ : Type} [DecidableEq κ] :
    ∀ (keys : List κ), keys.Nodup → ∀ (a : κ) (c : ℚ), a ∈ keys →
      (keys.map (fun k => if a = k then c else 0)).sum = c := by
  intro keys
  induction keys with
  | nil => intro _ a c ha; simp at ha
  | cons k ks ih =>
    intro hnd a c ha
    rw [List.nodup_cons] at hnd
    rcases List.mem_cons.1 ha with h1 | h2
    · subst h1
      have hz : ∀ k' ∈ ks, (if a = k' then c else 0) = 0 := by
        intro k' hk'
        rw [if_neg]; rintro rfl; exact hnd.1 hk'
      rw [List.map_cons, List.sum_cons, if_pos rfl, List.sum_eq_zero, add_zero]
      intro x hx
      rcases List.mem_map.1 hx with ⟨k', hk', rfl⟩
      exact hz k' hk'
    · have hne : a ≠ k := fun he => hnd.1 (he ▸ h2)
      rw [List.map_cons, List.sum_cons, if_neg hne, zero_add]
      exact ih hnd.2 a c h2

theorem sum_partition {κ : Type} [DecidableEq κ] (kOf : CRow → κ) (keys : List κ)
    (hnd : keys.Nodup) :
    ∀ (t : List CRow), (∀ r ∈ t, kOf r ∈ keys) →
      (keys.map (fun k => rainTotal (t.filter (fun r => kOf r = k)))).sum = rainTotal t := by
  intro t
  induction t with
  | nil =>
    intro _
    rw [rainTotal_nil, List.sum_eq_zero]
    intro x hx
    rcases List.mem_map.1 hx with ⟨k, _, rfl⟩
    simp [rainTotal_nil]
  | cons r t' ih =>
    intro hcov
    have hpt : ∀ k : κ, rainTotal ((r :: t').filter (fun x => kOf x = k)) =
        (if kOf r = k then r.rain.getD 0 else 0) +
          rainTotal (t'.filter (fun x => kOf x = k)) := by
      intro k
      by_cases h : kOf r = k
      · rw [List.filter_cons, if_pos (by simpa using h), rainTotal_cons, if_pos h]
      · rw [List.filter_cons, if_neg (by simpa using h), if_neg h, zero_add]
    calc (keys.map (fun k => rainTotal ((r :: t').filter (fun x => kOf x = k)))).sum
        = (keys.map (fun k => (if kOf r = k then r.rain.getD 0 else 0) +
            rainTotal (t'.filter (fun x => kOf x = k)))).sum := by
          exact congrArg List.sum (List.map_congr_left (fun k _ => hpt k))
      _ = (keys.map (fun k => if kOf r = k then r.rain.getD 0 else 0)).sum +
            (keys.map (fun k => rainTotal (t'.filter (fun x => kOf x = k)))).sum :=
          List.sum_map_add
      _ = r.rain.getD 0 + rainTotal t' := by
          rw [sum_indicator keys hnd (kOf r) _ (hcov r (List.mem_cons_self r t')),
            ih (fun x hx => hcov x (List.mem_cons_of_mem r hx))]
      _ = rainTotal (r :: t') := (rainTotal_cons r t').symm

theorem mem_rangeBy_le {α : Type} (next : α → α) (key : α → Nat) :
    ∀ (fuel : Nat) (a : α) (hi : Nat) (d : α),
      d ∈ rangeBy next key fuel a hi → key d ≤ hi := by
  intro fuel
  induction fuel with
  | zero => intro a hi d h; simp [rangeBy] at h
  | succ n ih =>
    intro a hi d h
    rw [rangeBy] at h
    by_cases hc : key a ≤ hi
    · rw [if_pos hc] at h
      rcases List.mem_cons.1 h with h | h
      · exact h ▸ hc
      · exact ih (next a) hi d h
    · rw [if_neg hc] at h; simp at h

theorem mem_rangeBy_valid {α : Type} (next : α → α) (key : α → Nat) (valid : α → Prop)
    (hvn : ∀ a, valid a → valid (next a)) :
    ∀ (fuel : Nat) (a : α) (hi : Nat) (d : α), valid a →
      d ∈ rangeBy next key fuel a hi → valid d := by
  intro fuel
  induction fuel with
  | zero => intro a hi d _ h; simp [rangeBy] at h
  | succ n ih =>
    intro a hi d ha h
    rw [rangeBy] at h
    by_cases hc : key a ≤ hi
    · rw [if_pos hc] at h
      rcases List.mem_cons.1 h with h | h
      · exact h ▸ ha
      · exact ih (next a) hi d (hvn a ha) h
    · rw [if_neg hc] at h; simp at h

theorem mem_rangeBy_ge {α : Type} (next : α → α) (key : α → Nat) (valid : α → Prop)
    (hvn : ∀ a, valid a → valid (next a))
    (hlt : ∀ a, valid a → key a < key (next a)) :
    ∀ (fuel : Nat) (a : α) (hi : Nat) (d : α), valid a →
      d ∈ rangeBy next key fuel a hi → key a ≤ key d := by
  intro fuel
  induction fuel with
  | zero => intro a hi d _ h; simp [rangeBy] at h
  | succ n ih =>
    intro a hi d ha h
    rw [rangeBy] at h
    by_cases hc : key a ≤ hi
    · rw [if_pos hc] at h
      rcases List.mem_cons.1 h with h | h
      · exact le_of_eq (congrArg key h.symm)
      · exact le_trans (le_of_lt (hlt a ha)) (ih (next a) hi d (hvn a ha) h)
    · rw [if_neg hc] at h; simp at h

theorem rangeBy_pairwise {α : Type} (next : α → α) (key : α → Nat) (valid : α → Prop)
    (hvn : ∀ a, valid a → valid (next a))
    (hlt : ∀ a, valid a → key a < key (next a)) :
    ∀ (fuel : Nat) (a : α) (hi : Nat), valid a →
      (rangeBy next key fuel a hi).Pairwise (fun x y => key x < key y) := by
  intro fuel
  induction fuel with
  | zero => intro a hi _; simp [rangeBy]
  | succ n ih =>
    intro a hi ha
    rw [rangeBy]
    by_cases hc : key a ≤ hi
    · rw [if_pos hc, List.pairwise_cons]
      refine ⟨fun d hd => ?_, ih (next a) hi (hvn a ha)⟩
      exact lt_of_lt_of_le (hlt a ha)
        (mem_rangeBy_ge next key valid hvn hlt n (next a) hi d (hvn a ha) hd)
    · rw [if_neg hc]; simp

theorem mem_rangeBy {α : Type} (next : α → α) (key : α → Nat) (valid : α → Prop)
    (hvn : ∀ a, valid a → valid (next a))
    (hlt : ∀ a, valid a → key a < key (next a))
    (hgap : ∀ a d, valid a → valid d → key a < key d → key (next a) ≤ key d)
    (hinj : ∀ a b, valid a → valid b → key a = key b → a = b) :
    ∀ (fuel : Nat) (a : α) (hi : Nat) (d : α), valid a → valid d →
      key a ≤ key d → key d ≤ hi → key d < key a + fuel →
      d ∈ rangeBy next key fuel a hi := by
  intro fuel
  induction fuel with
  | zero => intro a hi d _ _ h1 _ h3; omega
  | succ n ih =>
    intro a hi d ha hd h1 h2 h3
    have hc : key a ≤ hi := le_trans h1 h2
    rw [rangeBy, if_pos hc]
    by_cases he : key a = key d
    · exact (hinj a d ha hd he) ▸ List.mem_cons_self a _
    · have hlt' : key a < key d := lt_of_le_of_ne h1 he
      have hstep := hgap a d ha hd hlt'
      have hfuel : key d < key (next a) + n := by
        have := hlt a ha
        omega
      exact List.mem_cons_of_mem a (ih (next a) hi d (hvn a ha) hd hstep h2 hfuel)

theorem daysInMonth_le (y m : Nat) : Date.daysInMonth y m ≤ 31 := by
  unfold Date.daysInMonth
  split
  · split <;> omega
  · split <;> omega

theorem daysInMonth_pos (y m : Nat) : 1 ≤ Date.daysInMonth y m := by
  unfold Date.daysInMonth
  split
  · split <;> omega
  · split <;> omega

theorem Date.valid_next {d : Date} (h : d.valid) : d.next.valid := by
  obtain ⟨hm1, hm2, hd1, hd2⟩ := h
  unfold Date.next
  by_cases h1 : d.day < Date.daysInMonth d.year d.month
  · rw [if_pos h1]
    exact ⟨hm1, hm2, by dsimp only; omega, by dsimp only; omega⟩
  · rw [if_neg h1]
    by_cases h2 : d.month < 12
    · rw [if_pos h2]
      exact ⟨by dsimp only; omega, by dsimp only; omega, le_refl 1,
        by dsimp only; exact daysInMonth_pos _ _⟩
    · rw [if_neg h2]
      exact ⟨by dsimp only; omega, by dsimp only; omega, le_refl 1,
        by dsimp only; exact daysInMonth_pos _ _⟩

theorem Date.key_lt_next {d : Date} (h : d.valid) : d.key < d.next.key := by
  obtain ⟨hm1, hm2, hd1, hd2⟩ := h
  have h4 := daysInMonth_le d.year d.month
  unfold Date.next
  by_cases h1 : d.day < Date.daysInMonth d.year d.month
  · rw [if_pos h1]; unfold Date.key; dsimp only; omega
  · rw [if_neg h1]
    by_cases h2 : d.month < 12
    · rw [if_pos h2]; unfold Date.key; dsimp only; omega
    · rw [if_neg h2]; unfold Date.key; dsimp only; omega

theorem Date.key_inj : ∀ {d e : Date}, d.valid → e.valid → d.key = e.key → d = e := by
  rintro ⟨dy, dm, dd⟩ ⟨ey, em, ed⟩ ⟨a1, a2, a3, a4⟩ ⟨b1, b2, b3, b4⟩ h
  have h4 := daysInMonth_le dy dm
  have h5 := daysInMonth_le ey em
  unfold Date.key at h
  dsimp only at h a1 a2 a3 a4 b1 b2 b3 b4
  simp only [Date.mk.injEq]
  omega

theorem Date.next_key_le : ∀ {d e : Date}, d.valid → e.valid → d.key < e.key →
    d.next.key ≤ e.key := by
  rintro ⟨dy, dm, dd⟩ ⟨ey, em, ed⟩ ⟨a1, a2, a3, a4⟩ ⟨b1, b2, b3, b4⟩ h
  have h4 := daysInMonth_le dy dm
  have h5 := daysInMonth_le ey em
  unfold Date.key at h
  dsimp only at h a1 a2 a3 a4 b1 b2 b3 b4
  unfold Date.next
  dsimp only
  by_cases h1 : dd < Date.daysInMonth dy dm
  · rw [if_pos h1]; unfold Date.key; dsimp only; omega
  · rw [if_neg h1]
    by_cases h2 : dm < 12
    · rw [if_pos h2]; unfold Date.key; dsimp only
      by_cases hy : ey = dy ∧ em = dm
      · obtain ⟨rfl, rfl⟩ := hy
        omega
      · omega
    · rw [if_neg h2]; unfold Date.key; dsimp only
      by_cases hy : ey = dy ∧ em = dm
      · obtain ⟨rfl, rfl⟩ := hy
        omega
      · omega

theorem validMonth_next {ym : Nat × Nat} (h : validMonth ym) :
    validMonth (monthNext ym) := by
  obtain ⟨h1, h2⟩ := h
  unfold monthNext
  by_cases hc : ym.2 < 12
  · rw [if_pos hc]; exact ⟨by omega, by omega⟩
  · rw [if_neg hc]; exact ⟨le_refl 1, by omega⟩

theorem monthIdx_next {ym : Nat × Nat} (h : validMonth ym) :
    monthIdx (monthNext ym) = monthIdx ym + 1 := by
  obtain ⟨h1, h2⟩ := h
  unfold monthNext monthIdx
  by_cases hc : ym.2 < 12
  · rw [if_pos hc]; dsimp only; omega
  · rw [if_neg hc]; dsimp only; omega

theorem monthIdx_inj : ∀ {a b : Nat × Nat}, validMonth a → validMonth b →
    monthIdx a = monthIdx b → a = b := by
  rintro ⟨y1, m1⟩ ⟨y2, m2⟩ ⟨a1, a2⟩ ⟨b1, b2⟩ h
  unfold monthIdx at h
  dsimp only at h a1 a2 b1 b2
  simp only [Prod.mk.injEq]
  omega

theorem dailyKeys_nodup (t : List CRow) (hv : ∀ r ∈ t, r.date.valid) :
    (dailyKeys t).Nodup := by
  rcases hmin : minBy Date.key (t.map (fun r => r.date)) with _ | lo
  · simp [dailyKeys, hmin]
  rcases hmax : maxBy Date.key (t.map (fun r => r.date)) with _ | hi
  · simp [dailyKeys, hmin, hmax]
  have hlo : lo.valid := by
    rcases List.mem_map.1 (minBy_mem Date.key _ lo hmin) with ⟨r, hr, he⟩
    exact he ▸ hv r hr
  have hp := rangeBy_pairwise Date.next Date.key Date.valid
    (fun a ha => Date.valid_next ha) (fun a ha => Date.key_lt_next ha)
    (hi.key - lo.key + 1) lo hi.key hlo
  simp only [dailyKeys, hmin, hmax]
  exact hp.imp (fun hlt he => by subst he; exact lt_irrefl _ hlt)

theorem mem_dailyKeys (t : List CRow) (hv : ∀ r ∈ t, r.date.valid) :
    ∀ r ∈ t, r.date ∈ dailyKeys t := by
  intro r hr
  have hne : t.map (fun x => x.date) ≠ [] := by
    cases t
    · simp at hr
    · simp
  rcases hmin : minBy Date.key (t.map (fun x => x.date)) with _ | lo
  · have hs := minBy_isSome Date.key _ hne; rw [hmin] at hs; simp at hs
  rcases hmax : maxBy Date.key (t.map (fun x => x.date)) with _ | hi
  · have hs := maxBy_isSome Date.key _ hne; rw [hmax] at hs; simp at hs
  have hlo : lo.valid := by
    rcases List.mem_map.1 (minBy_mem Date.key _ lo hmin) with ⟨q, hq, he⟩
    exact he ▸ hv q hq
  have hlov : lo.key ≤ r.date.key :=
    minBy_le Date.key _ lo hmin _ (List.mem_map_of_mem _ hr)
  have hhiv : r.date.key ≤ hi.key :=
    maxBy_ge Date.key _ hi hmax _ (List.mem_map_of_mem _ hr)
  have hlh : lo.key ≤ hi.key :=
    minBy_le Date.key _ lo hmin hi (maxBy_mem Date.key _ hi hmax)
  simp only [dailyKeys, hmin, hmax]
  exact mem_rangeBy Date.next Date.key Date.valid
    (fun a ha => Date.valid_next ha) (fun a ha => Date.key_lt_next ha)
    (fun a d ha hd h => Date.next_key_le ha hd h)
    (fun a b ha hb h => Date.key_inj ha hb h)
    (hi.key - lo.key + 1) lo hi.key r.date hlo (hv r hr) hlov hhiv (by omega)

theorem dailyKeys_mem_props (t : List CRow) (hv : ∀ r ∈ t, r.date.valid)
    (lo hi : Date) (hmin : minBy Date.key (t.map (fun r => r.date)) = some lo)
    (hmax : maxBy Date.key (t.map (fun r => r.date)) = some hi) :
    ∀ k ∈ dailyKeys t, k.valid ∧ lo.key ≤ k.key ∧ k.key ≤ hi.key := by
  intro k hk
  have hlo : lo.valid := by
    rcases List.mem_map.1 (minBy_mem Date.key _ lo hmin) with ⟨q, hq, he⟩
    exact he ▸ hv q hq
  simp only [dailyKeys, hmin, hmax] at hk
  refine ⟨mem_rangeBy_valid Date.next Date.key Date.valid
      (fun a ha => Date.valid_next ha) _ lo hi.key k hlo hk,
    mem_rangeBy_ge Date.next Date.key Date.valid
      (fun a ha => Date.valid_next ha) (fun a ha => Date.key_lt_next ha)
      _ lo hi.key k hlo hk,
    mem_rangeBy_le Date.next Date.key _ lo hi.key k hk⟩

theorem monthKeys_nodup (t : List CRow) (hv : ∀ r ∈ t, r.date.valid) :
    (monthKeys t).Nodup := by
  rcases hmin : minBy monthIdx (t.map monthOf) with _ | lo
  · simp [monthKeys, hmin]
  rcases hmax : maxBy monthIdx (t.map monthOf) with _ | hi
  · simp [monthKeys, hmin, hmax]
  have hlo : validMonth lo := by
    rcases List.mem_map.1 (minBy_mem monthIdx _ lo hmin) with ⟨r, hr, he⟩
    exact he ▸ ⟨(hv r hr).1, (hv r hr).2.1⟩
  have hp := rangeBy_pairwise monthNext monthIdx validMonth
    (fun a ha => validMonth_next ha)
    (fun a ha => by rw [monthIdx_next ha]; omega)
    (monthIdx hi - monthIdx lo + 1) lo (monthIdx hi) hlo
  simp only [monthKeys, hmin, hmax]
  exact hp.imp (fun hlt he => by subst he; exact lt_irrefl _ hlt)

theorem mem_monthKeys (t : List CRow) (hv : ∀ r ∈ t, r.date.valid) :
    ∀ r ∈ t, monthOf r ∈ monthKeys t := by
  intro r hr
  have hne : t.map monthOf ≠ [] := by
    cases t
    · simp at hr
    · simp
  rcases hmin : minBy monthIdx (t.map monthOf) with _ | lo
  · have hs := minBy_isSome monthIdx _ hne; rw [hmin] at hs; simp at hs
  rcases hmax : maxBy monthIdx (t.map monthOf) with _ | hi
  · have hs := maxBy_isSome monthIdx _ hne; rw [hmax] at hs; simp at hs
  have hlo : validMonth lo := by
    rcases List.mem_map.1 (minBy_mem monthIdx _ lo hmin) with ⟨q, hq, he⟩
    exact he ▸ ⟨(hv q hq).1, (hv q hq).2.1⟩
  have hlov : monthIdx lo ≤ monthIdx (monthOf r) :=
    minBy_le monthIdx _ lo hmin _ (List.mem_map_of_mem _ hr)
  have hhiv : monthIdx (monthOf r) ≤ monthIdx hi :=
    maxBy_ge monthIdx _ hi hmax _ (List.mem_map_of_mem _ hr)
  have hlh : monthIdx lo ≤ monthIdx hi :=
    minBy_le monthIdx _ lo hmin hi (maxBy_mem monthIdx _ hi hmax)
  simp only [monthKeys, hmin, hmax]
  exact mem_rangeBy monthNext monthIdx validMonth
    (fun a ha => validMonth_next ha)
    (fun a ha => by rw [monthIdx_next ha]; omega)
    (fun a d ha hd h => by rw [monthIdx_next ha]; omega)
    (fun a b ha hb h => monthIdx_inj ha hb h)
    (monthIdx hi - monthIdx lo + 1) lo (monthIdx hi) (monthOf r)
    hlo ⟨(hv r hr).1, (hv r hr).2.1⟩ hlov hhiv (by omega)

theorem yearKeys_nodup (t : List CRow) : (yearKeys t).Nodup := by
  rcases hmin : minBy id (t.map (fun r => r.date.year)) with _ | lo
  · simp [yearKeys, hmin]
  rcases hmax : maxBy id (t.map (fun r => r.date.year)) with _ | hi
  · simp [yearKeys, hmin, hmax]
  have hp := rangeBy_pairwise (fun y => y + 1) id (fun _ => True)
    (fun a _ => trivial) (fun a _ => by simp only [id_eq]; omega)
    (hi - lo + 1) lo hi trivial
  simp only [yearKeys, hmin, hmax]
  exact hp.imp (fun hlt he => by subst he; exact lt_irrefl _ hlt)

theorem mem_yearKeys (t : List CRow) : ∀ r ∈ t, r.date.year ∈ yearKeys t := by
  intro r hr
  have hne : t.map (fun x => x.date.year) ≠ [] := by
    cases t
    · simp at hr
    · simp
  rcases hmin : minBy id (t.map (fun x => x.date.year)) with _ | lo
  · have hs := minBy_isSome id _ hne; rw [hmin] at hs; simp at hs
  rcases hmax : maxBy id (t.map (fun x => x.date.year)) with _ | hi
  · have hs := maxBy_isSome id _ hne; rw [hmax] at hs; simp at hs
  have hlov : lo ≤ r.date.year :=
    minBy_le id _ lo hmin _ (List.mem_map_of_mem _ hr)
  have hhiv : r.date.year ≤ hi :=
    maxBy_ge id _ hi hmax _ (List.mem_map_of_mem _ hr)
  have hlh : lo ≤ hi := minBy_le id _ lo hmin hi (maxBy_mem id _ hi hmax)
  simp only [yearKeys, hmin, hmax]
  exact mem_rangeBy (fun y => y + 1) id (fun _ => True)
    (fun a _ => trivial) (fun a _ => by simp only [id_eq]; omega)
    (fun a d _ _ h => by simp only [id_eq] at h ⊢; omega)
    (fun a b _ _ h => h)
    (hi - lo + 1) lo hi r.date.year trivial trivial hlov hhiv
    (by simp only [id_eq]; omega)

theorem fillna_length (v : Option ℚ) (xs : List (Option ℚ)) :
    (fillna v xs).length = xs.length := by
  simp [fillna]

theorem fillColumn_length (xs : List (Option ℚ)) :
    (fillColumn xs).length = xs.length := by
  unfold fillColumn
  split
  · exact fillna_length _ _
  · rfl

theorem fillna_none (xs : List (Option ℚ)) : fillna none xs = xs := by
  induction xs with
  | nil => rfl
  | cons x t ih => cases x <;> simp [fillna, Option.orElse] at ih ⊢ <;> exact ih

theorem filterMap_id_of_all_none (xs : List (Option ℚ))
    (h : ∀ x ∈ xs, x = none) : xs.filterMap id = [] := by
  induction xs with
  | nil => rfl
  | cons x t ih =>
    have hx := h x (List.mem_cons_self x t)
    subst hx
    simp only [List.filterMap_cons, id]
    exact ih (fun y hy => h y (List.mem_cons_of_mem _ hy))

theorem meanSkipna_of_all_none (xs : List (Option ℚ))
    (h : ∀ x ∈ xs, x = none) : meanSkipna xs = none := by
  unfold meanSkipna
  rw [filterMap_id_of_all_none xs h]
  rfl

theorem fillColumn_of_all_none (xs : List (Option ℚ))
    (h : ∀ x ∈ xs, x = none) : fillColumn xs = xs := by
  unfold fillColumn
  rw [meanSkipna_of_all_none xs h, fillna_none]
  split <;> rfl

theorem fillColumn_of_no_none (xs : List (Option ℚ))
    (h : xs.all (fun x => x.isSome) = true) : fillColumn xs = xs := by
  unfold fillColumn
  rw [if_neg]
  rw [List.all_eq_true] at h
  rw [List.any_eq_true]
  rintro ⟨x, hx, hn⟩
  have := h x hx
  cases x
  · simp at this
  · simp at hn

theorem fillColumn_getElem_some (xs : List (Option ℚ)) (i : Nat) (v : ℚ)
    (h : xs[i]? = some (some v)) : (fillColumn xs)[i]? = some (some v) := by
  unfold fillColumn
  split
  · rw [fillna, List.getElem?_map, h]
    rfl
  · exact h

theorem fillColumn_getElem_none (xs : List (Option ℚ)) (i : Nat)
    (h : xs[i]? = some none) : (fillColumn xs)[i]? = some (meanSkipna xs) := by
  have hmem : (none : Option ℚ) ∈ xs := by
    rcases List.getElem?_eq_some_iff.1 h with ⟨hi, he⟩
    exact he ▸ List.getElem_mem hi
  unfold fillColumn
  rw [if_pos]
  · rw [fillna, List.getElem?_map, h]
    rfl
  · rw [List.any_eq_true]
    exact ⟨none, hmem, rfl⟩

theorem mem_fillColumn_of_mem (xs : List (Option ℚ)) (v : ℚ)
    (h : some v ∈ xs) : some v ∈ fillColumn xs := by
  unfold fillColumn
  split
  · rw [fillna]
    exact List.mem_map.2 ⟨some v, h, rfl⟩
  · exact h

theorem writeCols_map_date :
    ∀ (t : List ProjRow) (tvs rvs : List (Option ℚ)),
      tvs.length = t.length → rvs.length = t.length →
      (writeCols t tvs rvs).map (fun r => r.date) = t.map (fun r => r.date) := by
  intro t
  induction t with
  | nil => intro tvs rvs h1 _; rw [List.length_nil, List.length_eq_zero] at h1; subst h1; rfl
  | cons r t ih =>
    intro tvs rvs h1 h2
    cases tvs with
    | nil => simp at h1
    | cons a as =>
      cases rvs with
      | nil => simp at h2
      | cons b bs =>
        simp only [writeCols, List.map_cons]
        rw [ih as bs (by simpa using h1) (by simpa using h2)]

theorem writeCols_map_temp :
    ∀ (t : List ProjRow) (tvs rvs : List (Option ℚ)),
      tvs.length = t.length → rvs.length = t.length →
      (writeCols t tvs rvs).map (fun r => r.temp) = tvs := by
  intro t
  induction t with
  | nil => intro tvs rvs h1 _; rw [List.length_nil, List.length_eq_zero] at h1; subst h1; rfl
  | cons r t ih =>
    intro tvs rvs h1 h2
    cases tvs with
    | nil => simp at h1
    | cons a as =>
      cases rvs with
      | nil => simp at h2
      | cons b bs =>
        simp only [writeCols, List.map_cons]
        rw [ih as bs (by simpa using h1) (by simpa using h2)]

theorem writeCols_map_rain :
    ∀ (t : List ProjRow) (tvs rvs : List (Option ℚ)),
      tvs.length = t.length → rvs.length = t.length →
      (writeCols t tvs rvs).map (fun r => r.rain) = rvs := by
  intro t
  induction t with
  | nil =>
    intro tvs rvs _ h2
    rw [List.length_nil, List.length_eq_zero] at h2; subst h2; rfl
  | cons r t ih =>
    intro tvs rvs h1 h2
    cases tvs with
    | nil => simp at h1
    | cons a as =>
      cases rvs with
      | nil => simp at h2
      | cons b bs =>
        simp only [writeCols, List.map_cons]
        rw [ih as bs (by simpa using h1) (by simpa using h2)]

theorem impute_map_temp (t : List ProjRow) :
    (impute t).map (fun r => r.temp) = fillColumn (t.map (fun r => r.temp)) := by
  unfold impute
  exact writeCols_map_temp t _ _
    (by rw [fillColumn_length, List.length_map])
    (by rw [fillColumn_length, List.length_map])

theorem impute_map_rain (t : List ProjRow) :
    (impute t).map (fun r => r.rain) = fillColumn (t.map (fun r => r.rain)) := by
  unfold impute
  exact writeCols_map_rain t _ _
    (by rw [fillColumn_length, List.length_map])
    (by rw [fillColumn_length, List.length_map])

theorem impute_map_date (t : List ProjRow) :
    (impute t).map (fun r => r.date) = t.map (fun r => r.date) := by
  unfold impute
  exact writeCols_map_date t _ _
    (by rw [fillColumn_length, List.length_map])
    (by rw [fillColumn_length, List.length_map])

theorem impute_length (t : List ProjRow) : (impute t).length = t.length := by
  have := impute_map_date t
  have h1 := congrArg List.length this
  simpa using h1

theorem filterMap_id_fillna (m : ℚ) (xs : List (Option ℚ)) :
    (fillna (some m) xs).filterMap id = xs.map (fun x => x.getD m) := by
  unfold fillna
  rw [List.filterMap_map]
  have hfe : (id ∘ fun (x : Option ℚ) => x.orElse (fun _ => some m)) =
      some ∘ (fun x => x.getD m) := by
    funext x; cases x <;> rfl
  rw [hfe, List.filterMap_eq_map]

theorem sum_getD (m : ℚ) (xs : List (Option ℚ)) :
    (xs.map (fun x => x.getD m)).sum =
      (xs.filterMap id).sum + (xs.countP (fun x => x.isNone)) * m := by
  induction xs with
  | nil => simp
  | cons x t ih =>
    cases x with
    | none =>
      simp only [List.map_cons, List.sum_cons, List.filterMap_cons, List.countP_cons, ih]
      simp [Option.getD]
      push_cast
      ring
    | some a =>
      simp only [List.map_cons, List.sum_cons, List.filterMap_cons, List.countP_cons, ih]
      simp [Option.getD, id]
      ring

theorem length_split (xs : List (Option ℚ)) :
    xs.length = (xs.filterMap id).length + xs.countP (fun x => x.isNone) := by
  induction xs with
  | nil => rfl
  | cons x t ih =>
    cases x <;> simp [List.filterMap_cons, List.countP_cons, id, ih] <;> omega

theorem meanSkipna_eq_some (xs : List (Option ℚ)) (h2 : (xs.filterMap id).length ≠ 0) :
    meanSkipna xs = some ((xs.filterMap id).sum / (xs.filterMap id).length) := by
  unfold meanSkipna
  rw [if_neg h2]

theorem meanSkipna_fillColumn (xs : List (Option ℚ))
    (h2 : (xs.filterMap id).length ≠ 0) :
    meanSkipna (fillColumn xs) = meanSkipna xs := by
  have hm := meanSkipna_eq_some xs h2
  unfold fillColumn
  by_cases hany : xs.any (fun x => x.isNone) = true
  · rw [if_pos hany, hm]
    unfold meanSkipna
    rw [filterMap_id_fillna]
    rw [if_neg (by rw [List.length_map]; rw [length_split xs] at *; omega)]
    congr 1
    rw [sum_getD, List.length_map, length_split xs]
    have hn0 : ((xs.filterMap id).length : ℚ) ≠ 0 := by exact_mod_cast h2
    have hnk : (((xs.filterMap id).length + xs.countP (fun x => x.isNone) : Nat) : ℚ) ≠ 0 := by
      have hq : (xs.filterMap id).length + xs.countP (fun x => x.isNone) ≠ 0 := by omega
      exact_mod_cast hq
    push_cast at hnk ⊢
    field_simp
    ring
  · rw [if_neg hany, hm]

theorem fillColumn_all_isSome (xs : List (Option ℚ))
    (h2 : (xs.filterMap id).length ≠ 0) :
    ∀ x ∈ fillColumn xs, x.isSome := by
  have hm := meanSkipna_eq_some xs h2
  unfold fillColumn
  by_cases hany : xs.any (fun x => x.isNone) = true
  · rw [if_pos hany, hm]
    intro x hx
    rcases List.mem_map.1 hx with ⟨y, _, rfl⟩
    cases y <;> rfl
  · rw [if_neg hany]
    intro x hx
    cases hxx : x with
    | some a => rfl
    | none => exact absurd (List.any_eq_true.2 ⟨none, hxx ▸ hx, rfl⟩) hany

theorem meanSkipna_perm {xs ys : List (Option ℚ)} (h : xs.Perm ys) :
    meanSkipna xs = meanSkipna ys := by
  unfold meanSkipna
  have hfm := h.filterMap id
  rw [hfm.length_eq, hfm.sum_eq]

theorem addDerived_map_temp (u : List ProjRow) :
    (addDerived u).map (fun c => c.temp) = u.map (fun r => r.temp) := by
  rw [addDerived, List.map_map]
  rfl

theorem addDerived_map_rain (u : List ProjRow) :
    (addDerived u).map (fun c => c.rain) = u.map (fun r => r.rain) := by
  rw [addDerived, List.map_map]
  rfl

theorem sortByDate_perm (t : List ProjRow) : (sortByDate t).Perm t :=
  List.perm_insertionSort _ t

theorem clean_temp_perm (rows : List RawRow) :
    ((clean rows).map (fun c => c.temp)).Perm
      (fillColumn ((project (dropna rows)).map (fun r => r.temp))) := by
  unfold clean
  rw [addDerived_map_temp]
  have h1 := (sortByDate_perm (impute (project (dropna rows)))).map
    (fun (r : ProjRow) => r.temp)
  rw [impute_map_temp] at h1
  exact h1

theorem clean_rain_perm (rows : List RawRow) :
    ((clean rows).map (fun c => c.rain)).Perm
      (fillColumn ((project (dropna rows)).map (fun r => r.rain))) := by
  unfold clean
  rw [addDerived_map_rain]
  have h1 := (sortByDate_perm (impute (project (dropna rows)))).map
    (fun (r : ProjRow) => r.rain)
  rw [impute_map_rain] at h1
  exact h1

theorem clean_season_eq (rows : List RawRow) :
    ∀ c ∈ clean rows, c.season = month_to_season (c.month : Int) := by
  intro c hc
  unfold clean addDerived at hc
  rcases List.mem_map.1 hc with ⟨r, _, rfl⟩
  rfl

theorem clean_month_eq (rows : List RawRow) :
    ∀ c ∈ clean rows, c.month = c.date.month ∧ c.year = c.date.year ∧
      c.day = c.date.day := by
  intro c hc
  unfold clean addDerived at hc
  rcases List.mem_map.1 hc with ⟨r, _, rfl⟩
  exact ⟨rfl, rfl, rfl⟩

theorem clean_dates_from_input (rows : List RawRow) :
    ∀ c ∈ clean rows, ∃ r ∈ rows, r.date = some c.date := by
  intro c hc
  unfold clean addDerived at hc
  rcases List.mem_map.1 hc with ⟨q, hq, rfl⟩
  have hq2 : q ∈ impute (project (dropna rows)) := (sortByDate_perm _).subset hq
  have hq3 : q.date ∈ (impute (project (dropna rows))).map (fun r => r.date) :=
    List.mem_map_of_mem _ hq2
  rw [impute_map_date] at hq3
  rcases List.mem_map.1 hq3 with ⟨p, hp, he⟩
  rcases List.mem_filterMap.1 hp with ⟨raw, hraw, hmap⟩
  rcases Option.map_eq_some'.1 hmap with ⟨d, hd, rfl⟩
  refine ⟨raw, (List.mem_filter.1 hraw).1, ?_⟩
  dsimp only at he
  rw [hd, he]

theorem project_length (rows : List RawRow) :
    (project rows).length = (dropna rows).length := by
  induction rows with
  | nil => rfl
  | cons r t ih =>
    cases hd : r.date with
    | none =>
      simp only [project, dropna] at ih ⊢
      simp [List.filterMap_cons, List.filter_cons, hd, ih]
    | some d =>
      simp only [project, dropna] at ih ⊢
      simp [List.filterMap_cons, List.filter_cons, hd, ih]

theorem dropna_length (rows : List RawRow) :
    (dropna rows).length + (rows.filter (fun r => r.date.isNone)).length =
      rows.length := by
  induction rows with
  | nil => rfl
  | cons r t ih =>
    unfold dropna at ih ⊢
    cases hd : r.date <;> simp [List.filter_cons, hd] at ih ⊢ <;> omega

theorem clean_length (rows : List RawRow) :
    (clean rows).length = (project (dropna rows)).length := by
  unfold clean addDerived
  rw [List.length_map, (sortByDate_perm _).length_eq, impute_length]

theorem dropna_dropna (rows : List RawRow) : dropna (dropna rows) = dropna rows := by
  unfold dropna
  rw [List.filter_filter]
  simp [Bool.and_self]

/-- Claim C4: a row whose date field fails to parse is silently dropped: the
cleaned table's size is the input size minus the number of unparseable-date
rows, and every cleaned record's date was parsed from some input row (so no
unparseable row survives; by the type of `CRow.date` every cleaned record
carries a non-null parsed date).  `clean` is a total function, so no error
is raised for dropped rows. -/
theorem claim4_date_drop (rows : List RawRow) :
    (clean rows).length =
      rows.length - (rows.filter (fun r => r.date.isNone)).length ∧
    ∀ c ∈ clean rows, ∃ r ∈ rows, r.date = some c.date := by
  constructor
  · have h1 := clean_length rows
    have h2 := project_length (dropna rows)
    rw [dropna_dropna] at h2
    have h3 := dropna_length rows
    omega
  · exact clean_dates_from_input rows

theorem claim4_witness :
    (clean exampleRows).length =
      exampleRows.length -
        (exampleRows.filter (fun r => r.date.isNone)).length ∧
    ∀ c ∈ clean exampleRows, ∃ r ∈ exampleRows, r.date = some c.date :=
  claim4_date_drop exampleRows

/-- Claim C6: for every month 1-12 the season function returns one of the
four season strings, with the fixed mapping 12/1/2 Winter, 3/4/5 Spring,
6/7/8 Summer, 9/10/11 Autumn, and every cleaned record's season field is
this function applied to its month field. -/
theorem claim6_season (rows : List RawRow) :
    (∀ m : Int, 1 ≤ m → m ≤ 12 →
      month_to_season m ∈ (["Winter", "Spring", "Summer", "Autumn"] : List String)) ∧
    (month_to_season 12 = "Winter" ∧ month_to_season 1 = "Winter" ∧
      month_to_season 2 = "Winter") ∧
    (month_to_season 3 = "Spring" ∧ month_to_season 4 = "Spring" ∧
      month_to_season 5 = "Spring") ∧
    (month_to_season 6 = "Summer" ∧ month_to_season 7 = "Summer" ∧
      month_to_season 8 = "Summer") ∧
    (month_to_season 9 = "Autumn" ∧ month_to_season 10 = "Autumn" ∧
      month_to_season 11 = "Autumn") ∧
    (∀ c ∈ clean rows, c.season = month_to_season (c.month : Int)) := by
  refine ⟨?_, by decide, by decide, by decide, by decide, clean_season_eq rows⟩
  intro m hm1 hm2
  interval_cases m <;> decide

theorem claim6_witness :
    month_to_season 5 ∈ (["Winter", "Spring", "Summer", "Autumn"] : List String) ∧
    ∀ c ∈ clean exampleRows, c.season = month_to_season (c.month : Int) :=
  ⟨(claim6_season exampleRows).1 5 (by decide) (by decide),
   (claim6_season exampleRows).2.2.2.2.2⟩

/-- Claim C9: the season function is total over all integers and returns
Autumn for every integer outside the explicitly tested
sets 12/1/2, 3/4/5, 6/7/8 - including 9, 10, 11 and out-of-range inputs
such as 0 or 13 - because Autumn is the catch-all final else branch. -/
theorem claim9_catch_all (m : Int) (h1 : m ≠ 1) (h2 : m ≠ 2) (h3 : m ≠ 3)
    (h4 : m ≠ 4) (h5 : m ≠ 5) (h6 : m ≠ 6) (h7 : m ≠ 7) (h8 : m ≠ 8)
    (h12 : m ≠ 12) : month_to_season m = "Autumn" := by
  unfold month_to_season
  rw [if_neg (by rintro (h | h | h) <;> contradiction),
    if_neg (by rintro (h | h | h) <;> contradiction),
    if_neg (by rintro (h | h | h) <;> contradiction)]

theorem claim9_witness : month_to_season 13 = "Autumn" ∧ month_to_season 0 = "Autumn" :=
  ⟨claim9_catch_all 13 (by decide) (by decide) (by decide) (by decide)
    (by decide) (by decide) (by decide) (by decide) (by decide),
   claim9_catch_all 0 (by decide) (by decide) (by decide) (by decide)
    (by decide) (by decide) (by decide) (by decide) (by decide)⟩

theorem daily_keys_proj (t : List CRow) : (daily t).map Prod.fst = dailyKeys t := by
  rw [daily, List.map_map]
  exact (List.map_congr_left (fun a _ => rfl)).trans (List.map_id _)

theorem monthly_mem_eq (t : List CRow) (ym : Nat × Nat) (bk : Bucket)
    (h : (ym, bk) ∈ monthly t) :
    bk = aggOf (t.filter (fun r => monthOf r = ym)) := by
  rcases List.mem_map.1 h with ⟨k, _, he⟩
  rw [Prod.mk.injEq] at he
  rw [← he.2, ← he.1]

theorem yearly_mem_eq (t : List CRow) (y : Nat) (bk : Bucket)
    (h : (y, bk) ∈ yearly t) :
    bk = aggOf (t.filter (fun r => r.date.year = y)) := by
  rcases List.mem_map.1 h with ⟨k, _, he⟩
  rw [Prod.mk.injEq] at he
  rw [← he.2, ← he.1]

/-- Claim C8: on the concrete scenario input, the pipeline yields exactly 3
cleaned rows (the bad-date row dropped), the null temperature imputed to
15.0, the January monthly bucket with temperature mean 12.5 and
precipitation sum 2.0, the February bucket with temperature mean 20.0,
season Winter on every cleaned row (both months map to Winter), and global
precipitation sum 3.0. -/
theorem claim8_scenario :
    (clean exampleRows).length = 3 ∧
    (clean exampleRows).map (fun c => c.date) =
      [⟨2020, 1, 5⟩, ⟨2020, 1, 6⟩, ⟨2020, 2, 1⟩] ∧
    (clean exampleRows).map (fun c => c.temp) = [some 10, some 15, some 20] ∧
    monthly (clean exampleRows) =
      [((2020, 1), ⟨some (25 / 2), some 10, some 15, 2⟩),
       ((2020, 2), ⟨some 20, some 20, some 20, 1⟩)] ∧
    (clean exampleRows).map (fun c => c.season) = ["Winter", "Winter", "Winter"] ∧
    rainTotal (clean exampleRows) = 3 := by
  norm_num [clean, addDerived, sortByDate, List.insertionSort, List.orderedInsert,
    impute, writeCols, fillColumn, fillna, meanSkipna, project, dropna,
    List.filterMap_cons, month_to_season, Date.key, rainTotal, exampleRows,
    monthly, monthKeys, monthOf, monthIdx, monthNext, minBy, maxBy, rangeBy,
    aggOf, minSkipna, maxSkipna, List.filter_cons, min_def, max_def]
  constructor
  · intro h1
    exact absurd h1 (by simp)
  · intro h1
    exact absurd h1 (by simp)

/-- Claim C1 counterexample: on an input whose temperature column has zero
non-null values in the rows surviving date parsing, the cleaning stage does
NOT raise any error - `clean` is a total function and the imputation
`fillna` with the undefined (NaN) mean is a no-op - so the nulls survive
into the cleaned table and the NaN propagates into the `np.mean`
statistic. -/
theorem claim1_cex :
    (clean allNullTempRows).map (fun c => c.temp) = [none, none] ∧
    npMean ((clean allNullTempRows).map (fun c => c.temp)) = none := by
  norm_num [clean, addDerived, sortByDate, List.insertionSort, List.orderedInsert,
    impute, writeCols, fillColumn, fillna, meanSkipna, project, dropna,
    List.filterMap_cons, month_to_season, Date.key, npMean, allNullTempRows]

/-- Claim C1 (amended): for each of the two required numeric columns, if
the column has zero non-null values in the rows surviving date parsing,
cleaning raises no error (the source defines no `InsufficientDataError`):
the column mean is NaN, `fillna` with it leaves every entry null, so every
cleaned record still has a null entry in that column and the overall
`np.mean` statistic of that column is NaN. -/
theorem claim1_amended (rows : List RawRow) :
    (((project (dropna rows)).map (fun r => r.temp)).all
        (fun x => x.isNone) = true →
      (∀ c ∈ clean rows, c.temp = none) ∧
      npMean ((clean rows).map (fun c => c.temp)) = none) ∧
    (((project (dropna rows)).map (fun r => r.rain)).all
        (fun x => x.isNone) = true →
      (∀ c ∈ clean rows, c.rain = none) ∧
      npMean ((clean rows).map (fun c => c.rain)) = none) := by
  constructor
  · intro h
    have hall : ∀ x ∈ (project (dropna rows)).map (fun r => r.temp), x = none := by
      intro x hx
      have hs := List.all_eq_true.1 h x hx
      cases x
      · rfl
      · simp at hs
    have hfc := fillColumn_of_all_none _ hall
    have hperm := clean_temp_perm rows
    rw [hfc] at hperm
    have hall2 : ∀ x ∈ (clean rows).map (fun c => c.temp), x = none :=
      fun x hx => hall x (hperm.subset hx)
    refine ⟨fun c hc => hall2 c.temp (List.mem_map_of_mem _ hc), ?_⟩
    cases hcl : (clean rows).map (fun c => c.temp) with
    | nil => rfl
    | cons a t =>
      have ha : a = none := hall2 a (hcl ▸ List.mem_cons_self a t)
      unfold npMean
      rw [if_pos]
      rw [List.any_cons]
      simp [ha]
  · intro h
    have hall : ∀ x ∈ (project (dropna rows)).map (fun r => r.rain), x = none := by
      intro x hx
      have hs := List.all_eq_true.1 h x hx
      cases x
      · rfl
      · simp at hs
    have hfc := fillColumn_of_all_none _ hall
    have hperm := clean_rain_perm rows
    rw [hfc] at hperm
    have hall2 : ∀ x ∈ (clean rows).map (fun c => c.rain), x = none :=
      fun x hx => hall x (hperm.subset hx)
    refine ⟨fun c hc => hall2 c.rain (List.mem_map_of_mem _ hc), ?_⟩
    cases hcl : (clean rows).map (fun c => c.rain) with
    | nil => rfl
    | cons a t =>
      have ha : a = none := hall2 a (hcl ▸ List.mem_cons_self a t)
      unfold npMean
      rw [if_pos]
      rw [List.any_cons]
      simp [ha]

theorem claim1_witness :
    ((((project (dropna allNullTempRows)).map (fun r => r.temp)).all
        (fun x => x.isNone) = true) ∧
      (∀ c ∈ clean allNullTempRows, c.temp = none) ∧
      npMean ((clean allNullTempRows).map (fun c => c.temp)) = none) ∧
    ((((project (dropna allNullRainRows)).map (fun r => r.rain)).all
        (fun x => x.isNone) = true) ∧
      (∀ c ∈ clean allNullRainRows, c.rain = none) ∧
      npMean ((clean allNullRainRows).map (fun c => c.rain)) = none) :=
  ⟨⟨by decide, (claim1_amended allNullTempRows).1 (by decide)⟩,
   ⟨by decide, (claim1_amended allNullRainRows).2 (by decide)⟩⟩

/-- Claim C2 counterexample: with records only on 2020-01-01 and
2020-01-03, the daily aggregate produced by `resample("D")` contains a
bucket keyed 2020-01-02 although no record has that date: the daily
buckets are NOT exactly the dates touched by records. -/
theorem claim2_cex :
    (⟨2020, 1, 2⟩ : Date) ∈ (daily (clean gapRows)).map Prod.fst ∧
    ∀ c ∈ clean gapRows, c.date ≠ ⟨2020, 1, 2⟩ := by
  decide

/-- Claim C2 (amended): the daily aggregate has one bucket per calendar day
of the closed range from the least to the greatest record date: every date
touched by a record is a bucket, records sharing a date aggregate into the
single bucket of that date, the bucket keys are pairwise distinct, but every
untouched calendar day strictly inside the range is a (empty) bucket as
well - `resample("D")` gap-fills missing calendar days. -/
theorem claim2_amended (t : List CRow) (hv : ∀ r ∈ t, r.date.valid)
    (lo hi : Date)
    (hmin : minBy Date.key (t.map (fun r => r.date)) = some lo)
    (hmax : maxBy Date.key (t.map (fun r => r.date)) = some hi) :
    (∀ r ∈ t, r.date ∈ (daily t).map Prod.fst) ∧
    (∀ k ∈ (daily t).map Prod.fst, k.valid ∧ lo.key ≤ k.key ∧ k.key ≤ hi.key) ∧
    (∀ k : Date, k.valid → lo.key ≤ k.key → k.key ≤ hi.key →
      k ∈ (daily t).map Prod.fst) ∧
    ((daily t).map Prod.fst).Nodup ∧
    (∀ k bk, (k, bk) ∈ daily t →
      bk = aggOf (t.filter (fun r => r.date = k))) := by
  rw [daily_keys_proj]
  have hlo : lo.valid := by
    rcases List.mem_map.1 (minBy_mem Date.key _ lo hmin) with ⟨q, hq, he⟩
    exact he ▸ hv q hq
  have hlh : lo.key ≤ hi.key :=
    minBy_le Date.key _ lo hmin hi (maxBy_mem Date.key _ hi hmax)
  refine ⟨mem_dailyKeys t hv, dailyKeys_mem_props t hv lo hi hmin hmax,
    ?_, dailyKeys_nodup t hv, ?_⟩
  · intro k hkv hk1 hk2
    simp only [dailyKeys, hmin, hmax]
    exact mem_rangeBy Date.next Date.key Date.valid
      (fun a ha => Date.valid_next ha) (fun a ha => Date.key_lt_next ha)
      (fun a d ha hd hlt => Date.next_key_le ha hd hlt)
      (fun a b ha hb he => Date.key_inj ha hb he)
      (hi.key - lo.key + 1) lo hi.key k hlo hkv hk1 hk2 (by omega)
  · intro k bk hk
    rcases List.mem_map.1 hk with ⟨k2, _, he⟩
    rw [Prod.mk.injEq] at he
    rw [← he.2, ← he.1]

theorem claim2_witness :
    ((∀ r ∈ clean gapRows, r.date.valid) ∧
      minBy Date.key ((clean gapRows).map (fun r => r.date)) =
        some ⟨2020, 1, 1⟩ ∧
      maxBy Date.key ((clean gapRows).map (fun r => r.date)) =
        some ⟨2020, 1, 3⟩) ∧
    ((∀ r ∈ clean gapRows, r.date ∈ (daily (clean gapRows)).map Prod.fst) ∧
      (∀ k ∈ (daily (clean gapRows)).map Prod.fst,
        k.valid ∧ (⟨2020, 1, 1⟩ : Date).key ≤ k.key ∧
          k.key ≤ (⟨2020, 1, 3⟩ : Date).key) ∧
      (∀ k : Date, k.valid → (⟨2020, 1, 1⟩ : Date).key ≤ k.key →
        k.key ≤ (⟨2020, 1, 3⟩ : Date).key →
        k ∈ (daily (clean gapRows)).map Prod.fst) ∧
      ((daily (clean gapRows)).map Prod.fst).Nodup ∧
      (∀ k bk, (k, bk) ∈ daily (clean gapRows) →
        bk = aggOf ((clean gapRows).filter (fun r => r.date = k)))) :=
  ⟨⟨by decide, by decide, by decide⟩,
   claim2_amended (clean gapRows) (by decide) ⟨2020, 1, 1⟩ ⟨2020, 1, 3⟩
     (by decide) (by decide)⟩

theorem filterMap_id_length_ne_zero (xs : List (Option ℚ))
    (h : xs.any (fun x => x.isSome) = true) : (xs.filterMap id).length ≠ 0 := by
  rcases List.any_eq_true.1 h with ⟨x, hx, hs⟩
  cases x with
  | none => simp at hs
  | some v =>
    have hm : v ∈ xs.filterMap id := List.mem_filterMap.2 ⟨some v, hx, rfl⟩
    intro hlen
    rw [List.length_eq_zero] at hlen
    rw [hlen] at hm
    simp at hm

/-- Claim C3: for each of the two numeric columns, if the column (in the
rows surviving date parsing) has at least one null and at least one
non-null value, then after cleaning the column has no nulls, the cleaned
column is the original column with every originally-null entry set to the
column's pre-imputation mean of non-null values (`meanSkipna`), and the
mean of the whole cleaned column equals that pre-imputation mean. -/
theorem claim3_imputation (rows : List RawRow) :
    ((((project (dropna rows)).map (fun r => r.temp)).any
        (fun x => x.isNone) = true →
      (((project (dropna rows)).map (fun r => r.temp)).any
        (fun x => x.isSome) = true) →
      (∀ c ∈ clean rows, c.temp.isSome) ∧
      ((clean rows).map (fun c => c.temp)).Perm
        (fillColumn ((project (dropna rows)).map (fun r => r.temp))) ∧
      (∀ i : Nat,
        ((project (dropna rows)).map (fun r => r.temp))[i]? = some none →
        (fillColumn ((project (dropna rows)).map (fun r => r.temp)))[i]? =
          some (meanSkipna ((project (dropna rows)).map (fun r => r.temp)))) ∧
      meanSkipna ((clean rows).map (fun c => c.temp)) =
        meanSkipna ((project (dropna rows)).map (fun r => r.temp)))) ∧
    ((((project (dropna rows)).map (fun r => r.rain)).any
        (fun x => x.isNone) = true →
      (((project (dropna rows)).map (fun r => r.rain)).any
        (fun x => x.isSome) = true) →
      (∀ c ∈ clean rows, c.rain.isSome) ∧
      ((clean rows).map (fun c => c.rain)).Perm
        (fillColumn ((project (dropna rows)).map (fun r => r.rain))) ∧
      (∀ i : Nat,
        ((project (dropna rows)).map (fun r => r.rain))[i]? = some none →
        (fillColumn ((project (dropna rows)).map (fun r => r.rain)))[i]? =
          some (meanSkipna ((project (dropna rows)).map (fun r => r.rain)))) ∧
      meanSkipna ((clean rows).map (fun c => c.rain)) =
        meanSkipna ((project (dropna rows)).map (fun r => r.rain)))) := by
  constructor
  · intro _ h2
    have hn := filterMap_id_length_ne_zero _ h2
    have hperm := clean_temp_perm rows
    refine ⟨?_, hperm, fun i hi => fillColumn_getElem_none _ i hi, ?_⟩
    · intro c hc
      have hmem : c.temp ∈ fillColumn ((project (dropna rows)).map (fun r => r.temp)) :=
        hperm.subset (List.mem_map_of_mem _ hc)
      exact fillColumn_all_isSome _ hn _ hmem
    · rw [meanSkipna_perm hperm, meanSkipna_fillColumn _ hn]
  · intro _ h2
    have hn := filterMap_id_length_ne_zero _ h2
    have hperm := clean_rain_perm rows
    refine ⟨?_, hperm, fun i hi => fillColumn_getElem_none _ i hi, ?_⟩
    · intro c hc
      have hmem : c.rain ∈ fillColumn ((project (dropna rows)).map (fun r => r.rain)) :=
        hperm.subset (List.mem_map_of_mem _ hc)
      exact fillColumn_all_isSome _ hn _ hmem
    · rw [meanSkipna_perm hperm, meanSkipna_fillColumn _ hn]

theorem claim3_witness :
    (∀ c ∈ clean exampleRows, c.temp.isSome) ∧
    ((clean exampleRows).map (fun c => c.temp)).Perm
      (fillColumn ((project (dropna exampleRows)).map (fun r => r.temp))) ∧
    (∀ i : Nat,
      ((project (dropna exampleRows)).map (fun r => r.temp))[i]? = some none →
      (fillColumn ((project (dropna exampleRows)).map (fun r => r.temp)))[i]? =
        some (meanSkipna ((project (dropna exampleRows)).map (fun r => r.temp)))) ∧
    meanSkipna ((clean exampleRows).map (fun c => c.temp)) =
      meanSkipna ((project (dropna exampleRows)).map (fun r => r.temp)) :=
  (claim3_imputation exampleRows).1 (by decide) (by decide)

/-- Claim C10: cleaning never alters an observed numeric value: in each
column, every originally non-null entry is unchanged (positionally) by the
imputation pass, a column containing no nulls is passed through entirely
unmodified, and every originally non-null value still appears in the
cleaned table's column. -/
theorem claim10_frame (rows : List RawRow) :
    (∀ (i : Nat) (v : ℚ),
      ((project (dropna rows)).map (fun r => r.temp))[i]? = some (some v) →
      ((impute (project (dropna rows))).map (fun r => r.temp))[i]? =
        some (some v)) ∧
    (∀ (i : Nat) (v : ℚ),
      ((project (dropna rows)).map (fun r => r.rain))[i]? = some (some v) →
      ((impute (project (dropna rows))).map (fun r => r.rain))[i]? =
        some (some v)) ∧
    (((project (dropna rows)).map (fun r => r.temp)).all
        (fun x => x.isSome) = true →
      (impute (project (dropna rows))).map (fun r => r.temp) =
        (project (dropna rows)).map (fun r => r.temp)) ∧
    (((project (dropna rows)).map (fun r => r.rain)).all
        (fun x => x.isSome) = true →
      (impute (project (dropna rows))).map (fun r => r.rain) =
        (project (dropna rows)).map (fun r => r.rain)) ∧
    (∀ v : ℚ, some v ∈ (project (dropna rows)).map (fun r => r.temp) →
      some v ∈ (clean rows).map (fun c => c.temp)) ∧
    (∀ v : ℚ, some v ∈ (project (dropna rows)).map (fun r => r.rain) →
      some v ∈ (clean rows).map (fun c => c.rain)) := by
  refine ⟨?_, ?_, ?_, ?_, ?_, ?_⟩
  · intro i v hi
    rw [impute_map_temp]
    exact fillColumn_getElem_some _ i v hi
  · intro i v hi
    rw [impute_map_rain]
    exact fillColumn_getElem_some _ i v hi
  · intro h
    rw [impute_map_temp]
    exact fillColumn_of_no_none _ h
  · intro h
    rw [impute_map_rain]
    exact fillColumn_of_no_none _ h
  · intro v hv
    exact (clean_temp_perm rows).symm.subset (mem_fillColumn_of_mem _ v hv)
  · intro v hv
    exact (clean_rain_perm rows).symm.subset (mem_fillColumn_of_mem _ v hv)

theorem claim10_witness :
    ((impute (project (dropna exampleRows))).map (fun r => r.temp))[0]? =
      some (some 10) ∧
    ((impute (project (dropna exampleRows))).map (fun r => r.rain) =
      (project (dropna exampleRows)).map (fun r => r.rain)) ∧
    some 2 ∈ (clean exampleRows).map (fun c => c.rain) :=
  ⟨(claim10_frame exampleRows).1 0 10 (by decide),
   (claim10_frame exampleRows).2.2.2.1 (by decide),
   (claim10_frame exampleRows).2.2.2.2.2 2 (by decide)⟩

/-- Claim C7: for a (non-empty) cleaned table of real calendar dates, the
daily, monthly and yearly bucket precipitation sums each total to the
precipitation sum of the whole table, and restricted to one month (resp.
one year) the daily (resp. monthly) bucket sums agree with that month's
(resp. year's) bucket sum.  With exact rational arithmetic in place of
floating point, the equalities are exact. -/
theorem claim7_aggregate_consistency (t : List CRow) (hne : t ≠ [])
    (hv : ∀ r ∈ t, r.date.valid) :
    ((daily t).map (fun b => b.2.rainSum)).sum = rainTotal t ∧
    ((monthly t).map (fun b => b.2.rainSum)).sum = rainTotal t ∧
    ((yearly t).map (fun b => b.2.rainSum)).sum = rainTotal t ∧
    (∀ ym bk, (ym, bk) ∈ monthly t →
      (((daily t).filter (fun b => (b.1.year, b.1.month) = ym)).map
        (fun b => b.2.rainSum)).sum = bk.rainSum) ∧
    (∀ y bk, (y, bk) ∈ yearly t →
      (((monthly t).filter (fun b => b.1.1 = y)).map
        (fun b => b.2.rainSum)).sum = bk.rainSum) := by
  refine ⟨?_, ?_, ?_, ?_, ?_⟩
  · rw [daily, List.map_map]
    exact sum_partition (fun r => r.date) (dailyKeys t) (dailyKeys_nodup t hv) t
      (mem_dailyKeys t hv)
  · rw [monthly, List.map_map]
    exact sum_partition monthOf (monthKeys t) (monthKeys_nodup t hv) t
      (mem_monthKeys t hv)
  · rw [yearly, List.map_map]
    exact sum_partition (fun r => r.date.year) (yearKeys t) (yearKeys_nodup t) t
      (mem_yearKeys t)
  · intro ym bk hk
    rw [monthly_mem_eq t ym bk hk, aggOf_rainSum, daily, List.filter_map,
      List.map_map]
    have hcongr : ∀ k ∈ (dailyKeys t).filter
        ((fun (b : Date × Bucket) => decide ((b.1.year, b.1.month) = ym)) ∘
          (fun k => (k, aggOf (t.filter (fun r => r.date = k))))),
        ((fun (b : Date × Bucket) => b.2.rainSum) ∘
          (fun k => (k, aggOf (t.filter (fun r => r.date = k))))) k =
        rainTotal ((t.filter (fun r => monthOf r = ym)).filter
          (fun r => r.date = k)) := by
      intro k hk2
      have hkm : (k.year, k.month) = ym := by
        have hp := (List.mem_filter.1 hk2).2
        simpa using hp
      show rainTotal (t.filter (fun r => r.date = k)) = _
      rw [← filter_sub _ _ ?_ t]
      intro x hx
      simp only [decide_eq_true_eq] at hx ⊢
      rw [monthOf, hx, hkm]
    rw [List.map_congr_left hcongr]
    exact sum_partition (fun r => r.date) _
      ((dailyKeys_nodup t hv).filter _)
      (t.filter (fun r => monthOf r = ym))
      (by
        intro r hr
        have hrt : r ∈ t := (List.mem_filter.1 hr).1
        have hrm : monthOf r = ym := by
          have hp := (List.mem_filter.1 hr).2
          simpa using hp
        refine List.mem_filter.2 ⟨mem_dailyKeys t hv r hrt, ?_⟩
        simp only [Function.comp, decide_eq_true_eq]
        rw [← hrm]
        rfl)
  · intro y bk hk
    rw [yearly_mem_eq t y bk hk, aggOf_rainSum, monthly, List.filter_map,
      List.map_map]
    have hcongr : ∀ ym ∈ (monthKeys t).filter
        ((fun (b : (Nat × Nat) × Bucket) => decide (b.1.1 = y)) ∘
          (fun k => (k, aggOf (t.filter (fun r => monthOf r = k))))),
        ((fun (b : (Nat × Nat) × Bucket) => b.2.rainSum) ∘
          (fun k => (k, aggOf (t.filter (fun r => monthOf r = k))))) ym =
        rainTotal ((t.filter (fun r => r.date.year = y)).filter
          (fun r => monthOf r = ym)) := by
      intro ym hk2
      have hkm : ym.1 = y := by
        have hp := (List.mem_filter.1 hk2).2
        simpa using hp
      show rainTotal (t.filter (fun r => monthOf r = ym)) = _
      rw [← filter_sub _ _ ?_ t]
      intro x hx
      simp only [decide_eq_true_eq] at hx ⊢
      rw [← hkm, ← hx]
      rfl
    rw [List.map_congr_left hcongr]
    exact sum_partition monthOf _
      ((monthKeys_nodup t hv).filter _)
      (t.filter (fun r => r.date.year = y))
      (by
        intro r hr
        have hrt : r ∈ t := (List.mem_filter.1 hr).1
        have hry : r.date.year = y := by
          have hp := (List.mem_filter.1 hr).2
          simpa using hp
        refine List.mem_filter.2 ⟨mem_monthKeys t hv r hrt, ?_⟩
        simp only [Function.comp, decide_eq_true_eq]
        exact hry)

theorem claim7_witness :
    (clean exampleRows ≠ [] ∧ ∀ r ∈ clean exampleRows, r.date.valid) ∧
    (((daily (clean exampleRows)).map (fun b => b.2.rainSum)).sum =
        rainTotal (clean exampleRows) ∧
      ((monthly (clean exampleRows)).map (fun b => b.2.rainSum)).sum =
        rainTotal (clean exampleRows) ∧
      ((yearly (clean exampleRows)).map (fun b => b.2.rainSum)).sum =
        rainTotal (clean exampleRows) ∧
      (∀ ym bk, (ym, bk) ∈ monthly (clean exampleRows) →
        (((daily (clean exampleRows)).filter
          (fun b => (b.1.year, b.1.month) = ym)).map
            (fun b => b.2.rainSum)).sum = bk.rainSum) ∧
      (∀ y bk, (y, bk) ∈ yearly (clean exampleRows) →
        (((monthly (clean exampleRows)).filter (fun b => b.1.1 = y)).map
          (fun b => b.2.rainSum)).sum = bk.rainSum)) :=
  ⟨⟨by decide, by decide⟩,
   claim7_aggregate_consistency (clean exampleRows) (by decide) (by decide)⟩
